import Mathlib

/-!
Verification of the Newari (Nepal Bhasa) information-retrieval system.

This file gives a shallow embedding of the core of the repository
(`newa_nlp/tokenizer.py`, `newa_nlp/corpus.py`, `newa_nlp/invertedindex.py`,
`newa_nlp/search.py`) and proves the specified properties of it.

Modelling conventions:
* Python strings are Lean `String`s; character-level work happens on `String.data`.
* Python's `str.strip()` truthiness test is `pyStrip s ≠ ""`.
* The regular expressions used for tokenization in the repository are all of the
  shape `[character-class]+` applied with `re.findall`; such a pattern is modelled
  by the predicate `Char → Bool` describing its character class, and `findall`
  by splitting the text into maximal runs of matching characters.
* Python `set`s are modelled as Lean lists together with set-flavoured operations
  (`setAdd`, `setInter`, `setUnion`, `pySet`); enumeration order of a Python set
  is unspecified, so every set-level statement below is phrased via membership,
  `Nodup` or permutation rather than via a particular list order.
* Python exceptions are modelled with `Except PyErr`; the two `ValueError`
  families raised by the code are kept apart by the two `PyErr` constructors.
-/

namespace NewaNlp

/-- Errors raised by the embedded code: bad enum-like string arguments
(`InvalidArgument`) and operations invoked before required state is configured
(`PreconditionFailed`). -/
inductive PyErr where
  | invalidArgument : String → PyErr
  | preconditionFailed : String → PyErr
deriving DecidableEq, Repr

/-- `c.isWhitespace`, the character class stripped by Python's `str.strip()`. -/
def isWs (c : Char) : Bool := c.isWhitespace

/-- A character list containing at least one non-whitespace character
(Python: `l.strip()` is truthy). -/
def nonBlankL (l : List Char) : Bool := l.any (fun c => !isWs c)

/-- Python truthiness of `s.strip()`: the string has a non-whitespace character. -/
def pyNonBlank (s : String) : Bool := nonBlankL s.data

/-- Python `str.strip()` on a character list: drop whitespace from both ends. -/
def pyStripL (l : List Char) : List Char :=
  ((l.dropWhile isWs).reverse.dropWhile isWs).reverse

/-- Python `str.strip()`. -/
def pyStrip (s : String) : String := ⟨pyStripL s.data⟩

/-- Python `str.lower()` (character-wise; identity on Devanagari). -/
def pyLower (s : String) : String := ⟨s.data.map Char.toLower⟩

/-- Python `str.upper()` (character-wise). -/
def pyUpper (s : String) : String := ⟨s.data.map Char.toUpper⟩

/-- Splits a character list into the maximal runs of characters satisfying `p`;
`acc` holds the (reversed) run currently being read. -/
def runsAux (p : Char → Bool) : List Char → List Char → List (List Char)
  | [], acc => if acc.isEmpty then [] else [acc.reverse]
  | c :: cs, acc =>
    if p c then runsAux p cs (c :: acc)
    else if acc.isEmpty then runsAux p cs []
    else acc.reverse :: runsAux p cs []

/-- The maximal runs of characters satisfying `p` in `l`: the matches of the
regex `[p]+` over `l`, in order. -/
def runs (p : Char → Bool) (l : List Char) : List (List Char) := runsAux p l []

/-- Python `re.findall(pattern, text)` for a `[character-class]+` pattern. -/
def findall (p : Char → Bool) (s : String) : List String :=
  (runs p s.data).map String.mk

/-- Python `text.split()`: maximal runs of non-whitespace characters. -/
def pySplit (s : String) : List String :=
  (runs (fun c => !isWs c) s.data).map String.mk

/-- Splits a character list at every character satisfying `p`, keeping empty
pieces (Python `re.split` with a single-character class); `acc` holds the
(reversed) piece currently being read. -/
def splitAux (p : Char → Bool) : List Char → List Char → List (List Char)
  | [], acc => [acc.reverse]
  | c :: cs, acc => if p c then acc.reverse :: splitAux p cs [] else splitAux p cs (c :: acc)

/-- Python `re.split("[p]", l)`. -/
def splitOnPred (p : Char → Bool) (l : List Char) : List (List Char) := splitAux p l []

/-- The default tokenization pattern of `tokenizer.tokenize_text`:
`[ऀ-ॣ०-ॿ]+` (Devanagari, excluding danda U+0964 and
double danda U+0965). -/
def devPatternTokenizer (c : Char) : Bool :=
  (0x900 ≤ c.val && c.val ≤ 0x963) || (0x966 ≤ c.val && c.val ≤ 0x97F)

/-- The default tokenization pattern of `corpus._tokenize`:
`[ऀ-ॣ॥-ॿ]+` (Devanagari, excluding only danda U+0964 —
note that unlike `devPatternTokenizer` it matches U+0965). -/
def devPatternCorpus (c : Char) : Bool :=
  (0x900 ≤ c.val && c.val ≤ 0x963) || (0x965 ≤ c.val && c.val ≤ 0x97F)

/-- `tokenizer.tokenize_text(text, mode, pattern)`: empty result on blank input,
whitespace splitting in `space` mode, regex matching in `regex` mode (with the
Devanagari default when no pattern is given), `ValueError` otherwise; the final
list comprehension keeps tokens whose strip is truthy and lower-cases them. -/
def tokenize_text (text : String) (mode : String) (pattern : Option (Char → Bool)) :
    Except PyErr (List String) :=
  if !pyNonBlank text then .ok []
  else do
    let tokens ←
      if mode = "space" then
        pure (((pySplit text).filter (fun t => pyStrip t ≠ "")).map pyStrip)
      else if mode = "regex" then
        pure (findall (pattern.getD devPatternTokenizer) text)
      else
        Except.error (.invalidArgument "mode must be space or regex")
    pure ((tokens.filter (fun t => pyStrip t ≠ "")).map pyLower)

/-- The default sentence-delimiter class of `tokenizer.tokenize_sentences`:
danda, double danda, `!`, `?`. -/
def defaultSentenceDelims (c : Char) : Bool :=
  c = '।' || c = '॥' || c = '!' || c = '?'

/-- `tokenizer.tokenize_sentences(text)`: split at sentence delimiters, strip
each piece, keep the non-blank ones. -/
def tokenize_sentences (text : String) (delims : Char → Bool) : List String :=
  if !pyNonBlank text then []
  else
    ((splitOnPred delims text.data).filter (fun l => pyStripL l ≠ [])).map
      (fun l => String.mk (pyStripL l))

/-- Python `set.add` on the list model of a set: a no-op when the element is
already present. -/
def setAdd (l : List String) (d : String) : List String :=
  if d ∈ l then l else l ++ [d]

/-- Python `set.intersection` on the list model. -/
def setInter (a b : List String) : List String := a.filter (fun x => x ∈ b)

/-- Python `set.union` on the list model. -/
def setUnion (a b : List String) : List String := a ++ b.filter (fun x => x ∉ a)

/-- The distinct elements of a list, keeping the first occurrence of each: used
both for Python `set(docs)` and for the key sequence of a Python
`Counter`/`dict` built by repeated updates. -/
def firstDedup : List String → List String
  | [] => []
  | t :: ts => t :: (firstDedup ts).filter (fun s => s ≠ t)

/-- Python `set(docs)` for a list `docs`: duplicates removed (the retained
occurrence and the order are a representation choice, set order being
unspecified; every set-level statement below is order-insensitive). -/
def pySet (l : List String) : List String := firstDedup l

/-- `InvertedIndex`: `index` models the `defaultdict(set)` mapping each term to
its posting set (keys in insertion order, each posting set as a duplicate-free
list); `document_count` and `total_terms` as in the source. -/
structure InvertedIndex where
  index : List (String × List String)
  document_count : Nat
  total_terms : Nat
deriving DecidableEq, Repr

/-- Lookup in the association-list model of a Python `dict`, with the
`dict.get(term, set())` empty default. -/
def lookupPostings : List (String × List String) → String → List String
  | [], _ => []
  | (k, v) :: rest, t => if k = t then v else lookupPostings rest t

/-- `defaultdict(set)` update `index[term].add(doc_id)`: update the posting set
of an existing key in place, or append a new key with a singleton set. -/
def addPosting : List (String × List String) → String → String → List (String × List String)
  | [], t, d => [(t, [d])]
  | (k, v) :: rest, t, d =>
    if k = t then (k, setAdd v d) :: rest else (k, v) :: addPosting rest t d

/-- Python `dict` assignment `index[term] = v`: overwrite an existing key in
place, or append a new one. -/
def setPosting : List (String × List String) → String → List String → List (String × List String)
  | [], t, v => [(t, v)]
  | (k, w) :: rest, t, v =>
    if k = t then (k, v) :: rest else (k, w) :: setPosting rest t v

/-- The body of the `for term in terms` loop of `InvertedIndex.add_document`. -/
def addTermStep (doc_id : String) (i : InvertedIndex) (term : String) : InvertedIndex :=
  if pyStrip term ≠ "" then
    { i with index := addPosting i.index term doc_id, total_terms := i.total_terms + 1 }
  else i

/-- `InvertedIndex.add_document(doc_id, terms)`. -/
def add_document (idx : InvertedIndex) (doc_id : String) (terms : List String) : InvertedIndex :=
  terms.foldl (addTermStep doc_id) { idx with document_count := idx.document_count + 1 }

/-- `InvertedIndex.get_documents(term)`. -/
def get_documents (idx : InvertedIndex) (term : String) : List String :=
  lookupPostings idx.index term

/-- The body of the `for term in query_terms[1:]` loop of
`InvertedIndex.search`: combine the accumulated results with the term's
postings according to the (case-folded) operation string, or raise. -/
def searchStep (idx : InvertedIndex) (operation : String)
    (results : List String) (term : String) : Except PyErr (List String) :=
  let term_docs := get_documents idx term
  if pyUpper operation = "AND" then .ok (setInter results term_docs)
  else if pyUpper operation = "OR" then .ok (setUnion results term_docs)
  else Except.error (.invalidArgument "Operation must be AND or OR")

/-- The `for term in query_terms[1:]` loop of `InvertedIndex.search`. -/
def searchLoop (idx : InvertedIndex) (operation : String) :
    List String → List String → Except PyErr (List String)
  | results, [] => .ok results
  | results, term :: rest =>
    match searchStep idx operation results term with
    | .error e => .error e
    | .ok results' => searchLoop idx operation results' rest

/-- `InvertedIndex.search(query_terms, operation)`: start from the first term's
postings and fold the remaining terms; the operation string is inspected only
inside that loop. -/
def search (idx : InvertedIndex) (query_terms : List String) (operation : String) :
    Except PyErr (List String) :=
  match query_terms with
  | [] => .ok []
  | first :: rest => searchLoop idx operation (get_documents idx first) rest

/-- The dictionary returned by `InvertedIndex.get_stats()`; the average is kept
exact as a rational. -/
structure IndexStats where
  document_count : Nat
  unique_terms : Nat
  total_terms : Nat
  average_terms_per_document : ℚ
deriving DecidableEq, Repr

/-- `InvertedIndex.get_stats()`. -/
def get_stats (idx : InvertedIndex) : IndexStats :=
  { document_count := idx.document_count
    unique_terms := idx.index.length
    total_terms := idx.total_terms
    average_terms_per_document :=
      if idx.document_count > 0 then (idx.total_terms : ℚ) / (idx.document_count : ℚ) else 0 }

/-- `InvertedIndex.to_dict()`: `{term: list(docs)}`. The posting sets are
already modelled as duplicate-free lists, so one possible enumeration of each
set is the list itself; since `list(docs)` enumerates a Python set in an
unspecified order, the round-trip theorem below quantifies over every
permutation of this output. -/
def to_dict (idx : InvertedIndex) : List (String × List String) := idx.index

/-- The body of the `for term, docs in data.items()` loop of
`InvertedIndex.from_dict`. -/
def fromDictStep (i : InvertedIndex) (p : String × List String) : InvertedIndex :=
  { i with
    index := setPosting i.index p.1 (pySet p.2)
    total_terms := i.total_terms + p.2.length }

/-- `InvertedIndex.from_dict(data, doc_count)`: start from an empty index with
the given `document_count` and, for each entry, assign `set(docs)` to the key
and add `len(docs)` to `total_terms`. -/
def from_dict (data : List (String × List String)) (doc_count : Nat) : InvertedIndex :=
  data.foldl fromDictStep { index := [], document_count := doc_count, total_terms := 0 }

/-- `corpus._tokenize(text, mode, pattern)`: whitespace splitting (dropping
falsy pieces) or regex matching with `devPatternCorpus` as the default. -/
def _tokenize (text : String) (mode : String) (pattern : Option (Char → Bool)) :
    Except PyErr (List String) :=
  if mode ≠ "space" ∧ mode ≠ "regex" then
    Except.error (.invalidArgument "mode must be space or regex")
  else if mode = "space" then .ok ((pySplit text).filter (fun t => t ≠ ""))
  else .ok (findall (pattern.getD devPatternCorpus) text)

/-- The multiset of tokens accumulated by the `counter.update(tokens)` loop of
`corpus.build_unigram`, as one flat list in traversal order: blank texts are
skipped, each remaining text is tokenized by `corpus._tokenize` and its falsy or
whitespace-only tokens are dropped. -/
def gatherTokens (mode : String) (pattern : Option (Char → Bool)) :
    List String → Except PyErr (List String)
  | [] => .ok []
  | text :: rest =>
    if !pyNonBlank text then gatherTokens mode pattern rest
    else
      match _tokenize text mode pattern with
      | .error e => .error e
      | .ok tokens =>
        match gatherTokens mode pattern rest with
        | .error e => .error e
        | .ok more => .ok (tokens.filter (fun t => t ≠ "" && pyNonBlank t) ++ more)

/-- The concatenation of the token lists produced by the Tokenizer
(`tokenize_text`) on each text, in order: "the number of tokens produced by the
Tokenizer across all inputs" is the length of this list. -/
def tokenizeAll (mode : String) (pattern : Option (Char → Bool)) :
    List String → Except PyErr (List String)
  | [] => .ok []
  | text :: rest =>
    match tokenize_text text mode pattern with
    | .error e => .error e
    | .ok ts =>
      match tokenizeAll mode pattern rest with
      | .error e => .error e
      | .ok more => .ok (ts ++ more)

/-- Strict lexicographic comparison of character lists by Unicode codepoint:
Python's `<` on strings. -/
def lexLt : List Char → List Char → Bool
  | [], [] => false
  | [], _ :: _ => true
  | _ :: _, [] => false
  | a :: as, b :: bs =>
    if a.val.toNat < b.val.toNat then true
    else if b.val.toNat < a.val.toNat then false
    else lexLt as bs

/-- The sort order of `build_unigram` for `sort_by="freq"`: Python's ascending
sort on the key `(-count, token)`, i.e. count descending with ties broken by
token ascending (lexicographic over codepoints). -/
def freqOrder (a b : String × Nat) : Prop :=
  b.2 < a.2 ∨ (a.2 = b.2 ∧ (lexLt a.1.data b.1.data = true ∨ a.1 = b.1))

instance : DecidableRel freqOrder := fun a b =>
  inferInstanceAs
    (Decidable (b.2 < a.2 ∨ (a.2 = b.2 ∧ (lexLt a.1.data b.1.data = true ∨ a.1 = b.1))))

/-- The sort order of `build_unigram` for `sort_by="dev"`: ascending by the
tuple of codepoints of the token. -/
def devOrder (a b : String × Nat) : Prop :=
  lexLt a.1.data b.1.data = true ∨ a.1.data = b.1.data

instance : DecidableRel devOrder := fun a b =>
  inferInstanceAs (Decidable (lexLt a.1.data b.1.data = true ∨ a.1.data = b.1.data))

/-- The `items.sort(...)` dispatch of `build_unigram` on `sort_by`. -/
def sortItems (sort_by : String) (items : List (String × Nat)) :
    Except PyErr (List (String × Nat)) :=
  if sort_by = "freq" then .ok (List.insertionSort freqOrder items)
  else if sort_by = "dev" then .ok (List.insertionSort devOrder items)
  else Except.error (.invalidArgument "sort_by must be freq or dev")

/-- `corpus.build_unigram(texts, tokenizer_mode, regex_pattern, sort_by, top_k)`:
aggregate token counts over all texts, list the `(token, count)` entries (one
per distinct token, in first-occurrence order, as `Counter.items()` does), sort
them by the requested order, and truncate to `top_k` if given. The sort keys
used by the source are injective on entries with distinct tokens, so the sorted
sequence does not depend on the pre-sort entry order. -/
def build_unigram (texts : List String) (tokenizer_mode : String)
    (regex_pattern : Option (Char → Bool)) (sort_by : String) (top_k : Option Nat) :
    Except PyErr (List (String × Nat)) :=
  match gatherTokens tokenizer_mode regex_pattern texts with
  | .error e => .error e
  | .ok toks =>
    match sortItems sort_by ((firstDedup toks).map (fun t => (t, toks.count t))) with
    | .error e => .error e
    | .ok sorted =>
      match top_k with
      | none => .ok sorted
      | some k => .ok (sorted.take k)

/-- One entry of the list returned by `SearchEngine.search_sentences`. -/
structure SentenceResult where
  document : String
  sentence : String
  context : String
deriving DecidableEq, Repr

/-- `SearchEngine` state: an optional loaded index and an optional corpus store.
The corpus CSV file is modelled by its parsed `(filename, content)` rows (the
engine only ever iterates the rows of the file behind `corpus_csv`); the
memoization cache `_document_cache` is not modelled — it only affects
`get_document_content`, which none of the verified claims touch. -/
structure SearchEngine where
  index : Option InvertedIndex
  corpus_csv : Option (List (String × String))

/-- Python list slicing `l[:k]`: the first `k` elements for `k ≥ 0`, all but the
last `-k` elements for `k < 0`. -/
def pySliceTo (k : Int) (l : List SentenceResult) : List SentenceResult :=
  if k < 0 then l.take (l.length - (-k).toNat) else l.take k.toNat

/-- Python list slicing `l[:k]` for document-id result lists. -/
def pySliceToS (k : Int) (l : List String) : List String :=
  if k < 0 then l.take (l.length - (-k).toNat) else l.take k.toNat

/-- Python truthiness of the optional `limit` argument: `None` and `0` are
falsy, every other integer truthy. -/
def limitTruthy : Option Int → Bool
  | none => false
  | some k => k ≠ 0

/-- The `if limit: result_list = result_list[:limit]` step of
`SearchEngine.search_documents`. -/
def applyLimit (limit : Option Int) (l : List String) : List String :=
  if limitTruthy limit then pySliceToS (limit.getD 0) l else l

/-- `SearchEngine.search_documents(query, operation, limit)`. -/
def search_documents (e : SearchEngine) (query : String) (operation : String)
    (limit : Option Int) : Except PyErr (List String) :=
  match e.index with
  | none =>
    Except.error
      (.preconditionFailed "No index loaded. Use load_index or provide index during initialization.")
  | some idx =>
    match tokenize_text query "regex" none with
    | .error er => .error er
    | .ok query_terms =>
      if query_terms = [] then .ok []
      else
        match search idx query_terms operation with
        | .error er => .error er
        | .ok results => .ok (applyLimit limit results)

/-- `tokenize_text` in regex mode with the default pattern never fails; this
total wrapper is used where the source calls it in that configuration. -/
def tokenizeRegexDefault (s : String) : List String :=
  match tokenize_text s "regex" none with
  | .ok ts => ts
  | .error _ => []

/-- `SearchEngine._get_sentence_context(content, sentence, context_length)`:
locate the first verbatim occurrence of the sentence, cut a window of
`context_length` characters on each side clamped to the document, and mark each
side that omitted content with an ellipsis; fall back to the sentence itself
when it does not occur. -/
def findSubAux (s : List Char) : List Char → Nat → Option Nat
  | [], i => if s = [] then some i else none
  | c :: rest, i =>
    if (c :: rest).take s.length = s then some i else findSubAux s rest (i + 1)

/-- `content.find(sentence)` (as `Option` instead of `-1`). -/
def pyFind (content sentence : List Char) : Option Nat := findSubAux sentence content 0

/-- The sentence occurs verbatim in the content at position `i`:
`content[i : i + len(sentence)] == sentence`. -/
def occursAt (content sentence : List Char) (i : Nat) : Prop :=
  (content.drop i).take sentence.length = sentence

/-- `SearchEngine._get_sentence_context`. -/
def _get_sentence_context (content sentence : String) (context_length : Nat) : String :=
  match pyFind content.data sentence.data with
  | none => sentence
  | some sentence_start =>
    let context_start := sentence_start - context_length
    let context_end :=
      min content.data.length (sentence_start + sentence.data.length + context_length)
    let ctx := (content.data.take context_end).drop context_start
    let ctx := if context_start > 0 then "...".data ++ ctx else ctx
    let ctx := if context_end < content.data.length then ctx ++ "...".data else ctx
    ⟨ctx⟩

/-- The per-sentence match test of `SearchEngine.search_sentences`: under
(case-folded) `AND` all lower-cased query terms must appear among the
sentence's lower-cased regex tokens, under anything else at least one must. -/
def sentenceMatches (query_terms_lower : List String) (operation : String)
    (sentence : String) : Bool :=
  let sentence_tokens_lower := (tokenizeRegexDefault sentence).map pyLower
  if pyUpper operation = "AND" then
    query_terms_lower.all (fun t => t ∈ sentence_tokens_lower)
  else
    query_terms_lower.any (fun t => t ∈ sentence_tokens_lower)

/-- The results appended by the nested row/sentence loops of
`SearchEngine.search_sentences`, in append order, ignoring the limit check:
rows whose id was not retrieved or whose content is falsy are skipped, and each
matching sentence of a kept row contributes one result. -/
def collectMatches (rows : List (String × String)) (doc_ids : List String)
    (query_terms_lower : List String) (operation : String) : List SentenceResult :=
  rows.foldl
    (fun acc row =>
      if row.1 ∉ doc_ids then acc
      else if row.2 = "" then acc
      else
        acc ++
          ((tokenize_sentences row.2 defaultSentenceDelims).filter
              (sentenceMatches query_terms_lower operation)).map
            (fun sentence =>
              { document := row.1
                sentence := pyStrip sentence
                context := _get_sentence_context row.2 sentence 100 }))
    []

/-- The `if limit and len(sentence_results) >= limit: return sentence_results[:limit]`
early exit of `search_sentences`, replayed over the append-ordered matches. -/
def runLimitLoop (limit : Option Int) : List SentenceResult → List SentenceResult → List SentenceResult
  | acc, [] => acc
  | acc, m :: ms =>
    if limitTruthy limit ∧ (limit.getD 0) ≤ ((acc ++ [m]).length : Int) then
      pySliceTo (limit.getD 0) (acc ++ [m])
    else runLimitLoop limit (acc ++ [m]) ms

/-- `SearchEngine.search_sentences(query, operation, limit)`. -/
def search_sentences (e : SearchEngine) (query : String) (operation : String)
    (limit : Option Int) : Except PyErr (List SentenceResult) :=
  match e.index, e.corpus_csv with
  | some _, some rows =>
    (match search_documents e query operation none with
    | .error er => .error er
    | .ok doc_ids =>
      if doc_ids = [] then .ok []
      else
        .ok (runLimitLoop limit []
          (collectMatches rows doc_ids ((tokenizeRegexDefault query).map pyLower) operation)))
  | _, _ =>
    Except.error
      (.preconditionFailed "Both index and corpus CSV must be available for sentence search.")

/-! ### Basic lemmas about the set model -/

lemma mem_setAdd (l : List String) (d x : String) :
    x ∈ setAdd l d ↔ x ∈ l ∨ x = d := by
  unfold setAdd
  by_cases h : d ∈ l
  · simp only [if_pos h]
    constructor
    · exact Or.inl
    · rintro (hx | rfl)
      · exact hx
      · exact h
  · simp [if_neg h]

lemma nodup_setAdd (l : List String) (d : String) (h : l.Nodup) :
    (setAdd l d).Nodup := by
  unfold setAdd
  by_cases hd : d ∈ l
  · simpa [hd] using h
  · simp only [if_neg hd]
    simpa [List.nodup_append] using ⟨h, hd⟩

lemma setAdd_idem (l : List String) (d : String) :
    setAdd (setAdd l d) d = setAdd l d := by
  have hd : d ∈ setAdd l d := (mem_setAdd l d d).mpr (Or.inr rfl)
  rw [show setAdd (setAdd l d) d
      = if d ∈ setAdd l d then setAdd l d else setAdd l d ++ [d] from rfl]
  rw [if_pos hd]

lemma mem_firstDedup (x : String) : ∀ l : List String, x ∈ firstDedup l ↔ x ∈ l := by
  intro l
  induction l with
  | nil => simp [firstDedup]
  | cons t ts ih =>
    by_cases h : x = t
    · subst h
      simp [firstDedup]
    · simp [firstDedup, h, List.mem_filter, ih]

lemma nodup_firstDedup : ∀ l : List String, (firstDedup l).Nodup := by
  intro l
  induction l with
  | nil => simp [firstDedup]
  | cons t ts ih =>
    refine List.Nodup.cons ?_ (List.Nodup.filter _ ih)
    intro hmem
    have := (List.mem_filter.mp hmem).2
    simp at this

/-! ### C1: `add_document` -/

lemma lookupPostings_addPosting :
    ∀ (l : List (String × List String)) (t d s : String),
      lookupPostings (addPosting l t d) s =
        if s = t then setAdd (lookupPostings l t) d else lookupPostings l s := by
  intro l
  induction l with
  | nil =>
    intro t d s
    by_cases h : s = t
    · subst h
      simp [addPosting, lookupPostings, setAdd]
    · have h' : ¬ t = s := fun hh => h hh.symm
      simp [addPosting, lookupPostings, h, h']
  | cons p rest ih =>
    intro t d s
    obtain ⟨k, v⟩ := p
    by_cases hkt : k = t
    · subst hkt
      by_cases hsk : s = k
      · subst hsk
        simp [addPosting, lookupPostings]
      · have hks : ¬ k = s := fun h => hsk h.symm
        simp [addPosting, lookupPostings, hsk, hks]
    · have htk : ¬ t = k := fun h => hkt h.symm
      by_cases hsk : s = k
      · subst hsk
        simp [addPosting, lookupPostings, hkt, htk]
      · have hks : ¬ k = s := fun h => hsk h.symm
        simp [addPosting, lookupPostings, hkt, hks, hsk, ih t d s]

lemma add_document_loop (d : String) :
    ∀ (ts : List String) (i : InvertedIndex),
      (ts.foldl (addTermStep d) i).document_count = i.document_count ∧
      (ts.foldl (addTermStep d) i).total_terms
        = i.total_terms + (ts.filter (fun t => pyStrip t ≠ "")).length ∧
      ∀ t, lookupPostings (ts.foldl (addTermStep d) i).index t =
        if t ∈ ts.filter (fun t => pyStrip t ≠ "") then setAdd (lookupPostings i.index t) d
        else lookupPostings i.index t := by
  intro ts
  induction ts with
  | nil => intro i; simp
  | cons a ts ih =>
    intro i
    have hfold : (a :: ts).foldl (addTermStep d) i
        = ts.foldl (addTermStep d) (addTermStep d i a) := rfl
    by_cases ha : pyStrip a ≠ ""
    · have hstep : addTermStep d i a =
          { i with index := addPosting i.index a d, total_terms := i.total_terms + 1 } := by
        simp [addTermStep, ha]
      have hfc : (a :: ts).filter (fun t => pyStrip t ≠ "")
          = a :: ts.filter (fun t => pyStrip t ≠ "") := by
        simp [List.filter_cons, ha]
      obtain ⟨ihdc, ihtt, ihpost⟩ :=
        ih { i with index := addPosting i.index a d, total_terms := i.total_terms + 1 }
      refine ⟨?_, ?_, ?_⟩
      · rw [hfold, hstep]; exact ihdc
      · rw [hfold, hstep, ihtt, hfc]
        simp only [List.length_cons]
        omega
      · intro t
        rw [hfold, hstep, hfc, ihpost t]
        dsimp only
        have hlook := lookupPostings_addPosting i.index a d t
        by_cases hmem : t ∈ ts.filter (fun t => pyStrip t ≠ "")
        · by_cases hta : t = a
          · subst hta
            rw [if_pos hmem, hlook, if_pos rfl, setAdd_idem,
              if_pos (List.mem_cons_self t _)]
          · rw [if_pos hmem, hlook, if_neg hta,
              if_pos (List.mem_cons_of_mem a hmem)]
        · by_cases hta : t = a
          · subst hta
            rw [if_neg hmem, hlook, if_pos rfl, if_pos (List.mem_cons_self t _)]
          · have hnotin : t ∉ a :: ts.filter (fun t => pyStrip t ≠ "") := by
              intro hx
              rcases List.mem_cons.mp hx with h1 | h2
              · exact hta h1
              · exact hmem h2
            rw [if_neg hmem, hlook, if_neg hta, if_neg hnotin]
    · have hstep : addTermStep d i a = i := by simp [addTermStep, ha]
      have hfc : (a :: ts).filter (fun t => pyStrip t ≠ "")
          = ts.filter (fun t => pyStrip t ≠ "") := by
        simp only [ne_eq, Decidable.not_not] at ha
        simp [List.filter_cons, ha]
      rw [hfold, hstep, hfc]
      exact ih i

/-- C1: `add_document` increments `document_count` by exactly 1 (even for a
repeated id); every token whose stripped form is non-empty adds 1 to
`total_terms` (a token repeated `n` times in the list contributes `n`, counted
by the multiplicity-preserving filter) and inserts the document id into that
token's posting set, a no-op when already present (membership gains at most the
new id, and duplicate-freeness of every posting set is preserved, so the set
stores the id once); whitespace-only tokens change nothing. -/
theorem c1_add_document_spec (idx : InvertedIndex) (d : String) (ts : List String) :
    (add_document idx d ts).document_count = idx.document_count + 1 ∧
    (add_document idx d ts).total_terms
      = idx.total_terms + (ts.filter (fun t => pyStrip t ≠ "")).length ∧
    (∀ t x, x ∈ get_documents (add_document idx d ts) t ↔
      (x ∈ get_documents idx t ∨ (x = d ∧ t ∈ ts.filter (fun t => pyStrip t ≠ "")))) ∧
    ((∀ t, (get_documents idx t).Nodup) →
      ∀ t, (get_documents (add_document idx d ts) t).Nodup) := by
  obtain ⟨hdc, htt, hpost⟩ :=
    add_document_loop d ts { idx with document_count := idx.document_count + 1 }
  have hdef : add_document idx d ts
      = ts.foldl (addTermStep d) { idx with document_count := idx.document_count + 1 } := rfl
  refine ⟨?_, ?_, ?_, ?_⟩
  · rw [hdef, hdc]
  · rw [hdef, htt]
  · intro t x
    rw [hdef]
    unfold get_documents
    rw [hpost t]
    dsimp only
    by_cases hmem : t ∈ ts.filter (fun t => pyStrip t ≠ "")
    · rw [if_pos hmem, mem_setAdd]
      constructor
      · rintro (h | h)
        · exact Or.inl h
        · exact Or.inr ⟨h, hmem⟩
      · rintro (h | ⟨h, -⟩)
        · exact Or.inl h
        · exact Or.inr h
    · rw [if_neg hmem]
      constructor
      · exact Or.inl
      · rintro (h | ⟨-, hf⟩)
        · exact h
        · exact absurd hf hmem
  · intro hnd t
    rw [hdef]
    unfold get_documents
    rw [hpost t]
    dsimp only
    by_cases hmem : t ∈ ts.filter (fun t => pyStrip t ≠ "")
    · simp only [if_pos hmem]
      exact nodup_setAdd _ _ (hnd t)
    · simp only [if_neg hmem]
      exact hnd t

/-- C1 witness: the theorem applied to a concrete empty index, a repeated
token and a whitespace-only token. -/
theorem c1_add_document_spec_witness :
    (add_document ⟨[], 0, 0⟩ "d1" ["क", " ", "क"]).document_count = 0 + 1 ∧
    (add_document ⟨[], 0, 0⟩ "d1" ["क", " ", "क"]).total_terms
      = 0 + ((["क", " ", "क"] : List String).filter (fun t => pyStrip t ≠ "")).length ∧
    ("d1" ∈ get_documents (add_document ⟨[], 0, 0⟩ "d1" ["क", " ", "क"]) "क" ↔
      ("d1" ∈ get_documents ⟨[], 0, 0⟩ "क" ∨
        ("d1" = "d1" ∧ "क" ∈ (["क", " ", "क"] : List String).filter
          (fun t => pyStrip t ≠ "")))) ∧
    (get_documents (add_document ⟨[], 0, 0⟩ "d1" ["क", " ", "क"]) "क").Nodup :=
  ⟨(c1_add_document_spec ⟨[], 0, 0⟩ "d1" ["क", " ", "क"]).1,
    (c1_add_document_spec ⟨[], 0, 0⟩ "d1" ["क", " ", "क"]).2.1,
    (c1_add_document_spec ⟨[], 0, 0⟩ "d1" ["क", " ", "क"]).2.2.1 "क" "d1",
    (c1_add_document_spec ⟨[], 0, 0⟩ "d1" ["क", " ", "क"]).2.2.2
      (fun _ => List.nodup_nil) "क"⟩

/-! ### C2: `search` argument validation -/

/-- C2 counterexample: the claim says `search` fails with `InvalidArgument` for
every non-empty term list whenever the operation string is neither `AND` nor
`OR` after case folding, but with a single term the operation string is never
inspected: `search` on `["x"]` with operation `"NAND"` succeeds. -/
theorem c2_counterexample :
    pyUpper "NAND" ≠ "AND" ∧ pyUpper "NAND" ≠ "OR" ∧ (["x"] : List String) ≠ [] ∧
    search ⟨[], 0, 0⟩ ["x"] "NAND" = .ok [] :=
  ⟨by decide, by decide, by decide, rfl⟩

/-- C2 (amended): with zero terms `search` returns the empty set without
inspecting the operation; with exactly one term it returns that term's postings
without inspecting the operation; the `InvalidArgument` failure for an
operation that is neither `AND` nor `OR` (after case folding) occurs exactly
when at least two terms are supplied. -/
theorem c2_search_spec (idx : InvertedIndex) (ts : List String) (op : String) :
    (ts = [] → search idx ts op = .ok []) ∧
    (∀ t, ts = [t] → search idx ts op = .ok (get_documents idx t)) ∧
    (2 ≤ ts.length → pyUpper op ≠ "AND" → pyUpper op ≠ "OR" →
      search idx ts op = .error (.invalidArgument "Operation must be AND or OR")) := by
  refine ⟨?_, ?_, ?_⟩
  · rintro rfl
    rfl
  · rintro t rfl
    rfl
  · intro hlen hand hor
    match ts, hlen with
    | a :: b :: rest, _ =>
      simp only [search, searchLoop]
      rw [show searchStep idx op (get_documents idx a) b
          = Except.error (.invalidArgument "Operation must be AND or OR") by
        unfold searchStep
        dsimp only
        rw [if_neg hand, if_neg hor]]

/-- C2 witness: the amended theorem applied at a concrete index, term lists and
operation string. -/
theorem c2_search_spec_witness :
    (2 ≤ (["a", "b"] : List String).length ∧ pyUpper "xor" ≠ "AND" ∧ pyUpper "xor" ≠ "OR") ∧
    search ⟨[], 0, 0⟩ ["a", "b"] "xor" = .error (.invalidArgument "Operation must be AND or OR") ∧
    search ⟨[], 0, 0⟩ ([] : List String) "xor" = .ok [] :=
  ⟨⟨by decide, by decide, by decide⟩,
    (c2_search_spec ⟨[], 0, 0⟩ ["a", "b"] "xor").2.2 (by decide) (by decide) (by decide),
    (c2_search_spec ⟨[], 0, 0⟩ [] "xor").1 rfl⟩

/-! ### C4: `from_dict` recomputes `total_terms` -/

lemma from_dict_loop (data : List (String × List String)) :
    ∀ i : InvertedIndex,
      (data.foldl fromDictStep i).document_count = i.document_count ∧
      (data.foldl fromDictStep i).total_terms
        = i.total_terms + (data.map (fun p => p.2.length)).sum ∧
      (data.foldl fromDictStep i).index
        = data.foldl (fun l p => setPosting l p.1 (pySet p.2)) i.index := by
  induction data with
  | nil => intro i; simp
  | cons p data ih =>
    intro i
    obtain ⟨ihdc, ihtt, ihix⟩ := ih (fromDictStep i p)
    refine ⟨by simpa [fromDictStep] using ihdc, ?_, ?_⟩
    · rw [List.foldl_cons, ihtt]
      simp [fromDictStep]
      omega
    · rw [List.foldl_cons, ihix]
      rfl

/-- C4: `from_dict(data, doc_count)` sets `total_terms` to exactly the sum of
the posting-list lengths of `data` (the behaviour that under-counts a native
build whenever a document had contributed a repeated token before
serialization) and sets `document_count` to the given count. -/
theorem c4_from_dict_total_terms (data : List (String × List String)) (doc_count : Nat) :
    (from_dict data doc_count).total_terms = (data.map (fun p => p.2.length)).sum ∧
    (from_dict data doc_count).document_count = doc_count := by
  obtain ⟨hdc, htt, -⟩ :=
    from_dict_loop data { index := [], document_count := doc_count, total_terms := 0 }
  exact ⟨by simpa using htt, by simpa using hdc⟩

/-! ### C9: `get_stats` -/

/-- C9: `get_stats` reports `document_count`, the number of distinct tokens in
the postings (`unique_terms`), `total_terms`, and an average that equals
`total_terms / document_count` exactly when `document_count > 0` and is defined
as `0` when `document_count = 0` — the guard means the division is only ever
performed with a non-zero divisor. -/
theorem c9_get_stats (idx : InvertedIndex) (h : (idx.index.map Prod.fst).Nodup) :
    (get_stats idx).document_count = idx.document_count ∧
    (get_stats idx).unique_terms = (idx.index.map Prod.fst).toFinset.card ∧
    (get_stats idx).total_terms = idx.total_terms ∧
    (0 < idx.document_count →
      (get_stats idx).average_terms_per_document
        = (idx.total_terms : ℚ) / (idx.document_count : ℚ)) ∧
    (idx.document_count = 0 → (get_stats idx).average_terms_per_document = 0) := by
  refine ⟨rfl, ?_, rfl, ?_, ?_⟩
  · rw [List.toFinset_card_of_nodup h]
    simp [get_stats]
  · intro hpos
    simp [get_stats, hpos]
  · intro hzero
    simp [get_stats, hzero]

/-- C9 witness: the statistics of a concrete one-document index. -/
theorem c9_get_stats_witness :
    (0 < (1 : Nat)) ∧
    (get_stats ⟨[("a", ["d"])], 1, 3⟩).average_terms_per_document = ((3 : Nat) : ℚ) / ((1 : Nat) : ℚ) ∧
    (get_stats ⟨[("a", ["d"])], 1, 3⟩).unique_terms = ((([("a", ["d"])] : List (String × List String)).map Prod.fst).toFinset).card :=
  ⟨Nat.one_pos,
    (c9_get_stats ⟨[("a", ["d"])], 1, 3⟩ (by decide)).2.2.2.1 Nat.one_pos,
    (c9_get_stats ⟨[("a", ["d"])], 1, 3⟩ (by decide)).2.1⟩

/-! ### C5: portable-form round trip -/

lemma lookupPostings_setPosting :
    ∀ (l : List (String × List String)) (t : String) (v : List String) (s : String),
      lookupPostings (setPosting l t v) s = if s = t then v else lookupPostings l s := by
  intro l
  induction l with
  | nil =>
    intro t v s
    by_cases h : s = t
    · subst h
      simp [setPosting, lookupPostings]
    · have h' : ¬ t = s := fun hh => h hh.symm
      simp [setPosting, lookupPostings, h, h']
  | cons p rest ih =>
    intro t v s
    obtain ⟨k, w⟩ := p
    by_cases hkt : k = t
    · subst hkt
      by_cases hsk : s = k
      · subst hsk
        simp [setPosting, lookupPostings]
      · have hks : ¬ k = s := fun h => hsk h.symm
        simp [setPosting, lookupPostings, hsk, hks]
    · have htk : ¬ t = k := fun h => hkt h.symm
      by_cases hsk : s = k
      · subst hsk
        simp [setPosting, lookupPostings, hkt, htk]
      · have hks : ¬ k = s := fun h => hsk h.symm
        simp [setPosting, lookupPostings, hkt, hks, hsk, ih t v s]

lemma setPosting_append (t : String) (v : List String) :
    ∀ l : List (String × List String), t ∉ l.map Prod.fst →
      setPosting l t v = l ++ [(t, v)] := by
  intro l
  induction l with
  | nil => intro _; rfl
  | cons p rest ih =>
    intro h
    obtain ⟨k, w⟩ := p
    have hk : ¬ k = t := by
      intro hkt
      exact h (by simp [hkt])
    have hrest : t ∉ rest.map Prod.fst := by
      intro hmem
      exact h (by simp [hmem])
    simp [setPosting, hk, ih hrest]

lemma foldSet_eq :
    ∀ (data : List (String × List String)) (acc : List (String × List String)),
      (data.map Prod.fst).Nodup →
      (∀ k ∈ data.map Prod.fst, k ∉ acc.map Prod.fst) →
      data.foldl (fun l p => setPosting l p.1 (pySet p.2)) acc
        = acc ++ data.map (fun p => (p.1, pySet p.2)) := by
  intro data
  induction data with
  | nil => intro acc _ _; simp
  | cons p data ih =>
    intro acc hnd hdisj
    obtain ⟨t, docs⟩ := p
    have hset : setPosting acc t (pySet docs) = acc ++ [(t, pySet docs)] :=
      setPosting_append t (pySet docs) acc (hdisj t (by simp))
    rw [List.map_cons] at hnd
    have hnd' : (data.map Prod.fst).Nodup := (List.nodup_cons.mp hnd).2
    have hhead : (t, docs).1 ∉ data.map Prod.fst := (List.nodup_cons.mp hnd).1
    have hdisj' : ∀ k ∈ data.map Prod.fst, k ∉ (acc ++ [(t, pySet docs)]).map Prod.fst := by
      intro k hk
      simp only [List.map_append, List.mem_append]
      rintro (hmem | hmem)
      · exact hdisj k (by simp [hk]) hmem
      · have : k = t := by simpa using hmem
        exact hhead (this ▸ hk)
    rw [List.foldl_cons, hset, ih (acc ++ [(t, pySet docs)]) hnd' hdisj']
    simp

lemma mem_pySet (x : String) (l : List String) : x ∈ pySet l ↔ x ∈ l :=
  mem_firstDedup x l

lemma forall₂_keys_eq {data ix : List (String × List String)}
    (h : List.Forall₂ (fun p q => p.1 = q.1 ∧ p.2.Perm q.2) data ix) :
    data.map Prod.fst = ix.map Prod.fst := by
  induction h with
  | nil => rfl
  | cons hpq _ ih => simp [hpq.1, ih]

lemma lookup_map_pySet_of_forall₂ {data ix : List (String × List String)}
    (h : List.Forall₂ (fun p q => p.1 = q.1 ∧ p.2.Perm q.2) data ix) :
    ∀ t x, (x ∈ lookupPostings (data.map (fun p => (p.1, pySet p.2))) t
      ↔ x ∈ lookupPostings ix t) := by
  induction h with
  | nil => intro t x; simp
  | cons hpq htail ih =>
    intro t x
    rename_i p q data' ix'
    obtain ⟨hk, hperm⟩ := hpq
    by_cases hqt : q.1 = t
    · have hpt : p.1 = t := hk.trans hqt
      simp only [List.map_cons, lookupPostings, hpt, hqt, if_pos]
      rw [mem_pySet x p.2]
      exact hperm.mem_iff
    · have hpt : ¬ p.1 = t := fun hh => hqt (hk ▸ hh)
      simp only [List.map_cons, lookupPostings, hpt, hqt, if_neg, if_false]
      exact ih t x

/-- C5: restoring the portable form of an index (any list-valued form whose
entries carry the same tokens and any enumeration of each posting set, which is
what `to_dict` emits since `list(docs)` enumerates a set in an unspecified
order) with the original `document_count` yields an index with exactly the same
posting sets (membership-wise) and the same `document_count`; the last conjunct
states that `to_dict` itself is such a portable form. -/
theorem c5_portable_roundtrip (idx : InvertedIndex) (data : List (String × List String))
    (hkeys : (idx.index.map Prod.fst).Nodup)
    (hdata : List.Forall₂ (fun p q => p.1 = q.1 ∧ p.2.Perm q.2) data (to_dict idx)) :
    (∀ t x, x ∈ get_documents (from_dict data idx.document_count) t
      ↔ x ∈ get_documents idx t) ∧
    (from_dict data idx.document_count).document_count = idx.document_count ∧
    List.Forall₂ (fun p q => p.1 = q.1 ∧ p.2.Perm q.2) (to_dict idx) idx.index := by
  have hdata' : List.Forall₂ (fun p q => p.1 = q.1 ∧ p.2.Perm q.2) data idx.index := hdata
  obtain ⟨hdc, -, hix⟩ :=
    from_dict_loop data { index := [], document_count := idx.document_count, total_terms := 0 }
  have hdkeys : (data.map Prod.fst).Nodup := by
    rw [forall₂_keys_eq hdata']
    exact hkeys
  have hfold : (from_dict data idx.document_count).index
      = data.map (fun p => (p.1, pySet p.2)) := by
    rw [show (from_dict data idx.document_count).index
        = (data.foldl fromDictStep
            { index := [], document_count := idx.document_count, total_terms := 0 }).index
        from rfl, hix]
    simpa using foldSet_eq data [] hdkeys (by simp)
  refine ⟨?_, ?_, ?_⟩
  · intro t x
    unfold get_documents
    rw [hfold]
    exact lookup_map_pySet_of_forall₂ hdata' t x
  · simpa using hdc
  · show List.Forall₂ (fun p q => p.1 = q.1 ∧ p.2.Perm q.2) idx.index idx.index
    rw [List.forall₂_same]
    intro p _
    exact ⟨rfl, List.Perm.refl _⟩

/-- C5 witness: round trip of a concrete two-token index through a portable
form that enumerates one posting set in a different order. -/
theorem c5_portable_roundtrip_witness :
    ("d2" ∈ get_documents
        (from_dict [("क", ["d2", "d1"]), ("ख", ["d1"])]
          (⟨[("क", ["d1", "d2"]), ("ख", ["d1"])], 2, 3⟩ : InvertedIndex).document_count) "क"
      ↔ "d2" ∈ get_documents (⟨[("क", ["d1", "d2"]), ("ख", ["d1"])], 2, 3⟩ : InvertedIndex) "क") ∧
    (from_dict [("क", ["d2", "d1"]), ("ख", ["d1"])]
        (⟨[("क", ["d1", "d2"]), ("ख", ["d1"])], 2, 3⟩ : InvertedIndex).document_count).document_count
      = (⟨[("क", ["d1", "d2"]), ("ख", ["d1"])], 2, 3⟩ : InvertedIndex).document_count :=
  ⟨(c5_portable_roundtrip ⟨[("क", ["d1", "d2"]), ("ख", ["d1"])], 2, 3⟩
      [("क", ["d2", "d1"]), ("ख", ["d1"])] (by decide)
      (List.Forall₂.cons ⟨rfl, by decide⟩
        (List.Forall₂.cons ⟨rfl, by decide⟩ List.Forall₂.nil))).1 "क" "d2",
    (c5_portable_roundtrip ⟨[("क", ["d1", "d2"]), ("ख", ["d1"])], 2, 3⟩
      [("क", ["d2", "d1"]), ("ख", ["d1"])] (by decide)
      (List.Forall₂.cons ⟨rfl, by decide⟩
        (List.Forall₂.cons ⟨rfl, by decide⟩ List.Forall₂.nil))).2.1⟩

/-! ### Tokenizer lemmas -/

lemma runsAux_spec (p : Char → Bool) :
    ∀ (l acc : List Char), (∀ c ∈ acc, p c = true) →
      ∀ r ∈ runsAux p l acc, r ≠ [] ∧ ∀ c ∈ r, p c = true := by
  intro l
  induction l with
  | nil =>
    intro acc hacc r hr
    by_cases h : acc.isEmpty
    · simp [runsAux, h] at hr
    · simp only [runsAux, h, if_false, Bool.false_eq_true] at hr
      have hracc : r = acc.reverse := by simpa using hr
      subst hracc
      constructor
      · intro hrev
        have haccnil : acc = [] := by simpa using congrArg List.reverse hrev
        rw [haccnil] at h
        exact h rfl
      · intro c hc
        exact hacc c (List.mem_reverse.mp hc)
  | cons c cs ih =>
    intro acc hacc r hr
    by_cases hp : p c
    · rw [show runsAux p (c :: cs) acc
          = if p c then runsAux p cs (c :: acc)
            else if acc.isEmpty then runsAux p cs []
            else acc.reverse :: runsAux p cs [] from rfl, if_pos hp] at hr
      refine ih (c :: acc) ?_ r hr
      intro x hx
      rcases List.mem_cons.mp hx with rfl | hx
      · exact hp
      · exact hacc x hx
    · rw [show runsAux p (c :: cs) acc
          = if p c then runsAux p cs (c :: acc)
            else if acc.isEmpty then runsAux p cs []
            else acc.reverse :: runsAux p cs [] from rfl, if_neg hp] at hr
      by_cases h : acc.isEmpty
      · rw [if_pos h] at hr
        exact ih [] (by intro x hx; cases hx) r hr
      · rw [if_neg h] at hr
        rcases List.mem_cons.mp hr with rfl | hr
        · constructor
          · intro hrev
            have haccnil : acc = [] := by simpa using congrArg List.reverse hrev
            rw [haccnil] at h
            exact h rfl
          · intro x hx
            exact hacc x (List.mem_reverse.mp hx)
        · exact ih [] (by intro x hx; cases hx) r hr

lemma runs_spec (p : Char → Bool) (l : List Char) :
    ∀ r ∈ runs p l, r ≠ [] ∧ ∀ c ∈ r, p c = true :=
  runsAux_spec p l [] (by intro c hc; cases hc)

lemma findall_spec (p : Char → Bool) (s : String) :
    ∀ t ∈ findall p s, t.data ≠ [] ∧ ∀ c ∈ t.data, p c = true := by
  intro t ht
  obtain ⟨r, hr, rfl⟩ := List.mem_map.mp ht
  exact runs_spec p s.data r hr

lemma pySplit_spec (s : String) :
    ∀ t ∈ pySplit s, t.data ≠ [] ∧ ∀ c ∈ t.data, isWs c = false := by
  intro t ht
  obtain ⟨r, hr, rfl⟩ := List.mem_map.mp ht
  obtain ⟨hne, hall⟩ := runs_spec _ s.data r hr
  refine ⟨hne, ?_⟩
  intro c hc
  have := hall c hc
  simpa using this

lemma dropWhile_all_false {p : Char → Bool} :
    ∀ l : List Char, (∀ c ∈ l, p c = false) → l.dropWhile p = l := by
  intro l h
  cases l with
  | nil => rfl
  | cons c cs => simp [List.dropWhile_cons, h c (List.mem_cons_self c cs)]

lemma pyStripL_eq_self (l : List Char) (h : ∀ c ∈ l, isWs c = false) :
    pyStripL l = l := by
  unfold pyStripL
  rw [dropWhile_all_false l h,
    dropWhile_all_false l.reverse (fun c hc => h c (List.mem_reverse.mp hc)),
    List.reverse_reverse]

lemma nonBlankL_dropWhile (l : List Char) :
    nonBlankL (l.dropWhile isWs) = nonBlankL l := by
  induction l with
  | nil => rfl
  | cons c cs ih =>
    by_cases h : isWs c = true
    · rw [List.dropWhile_cons, if_pos h, ih]
      unfold nonBlankL
      rw [List.any_cons, h]
      simp
    · rw [List.dropWhile_cons, if_neg h]

lemma nonBlankL_reverse (l : List Char) : nonBlankL l.reverse = nonBlankL l := by
  simp [nonBlankL, List.any_reverse]

lemma nonBlankL_pyStripL (l : List Char) : nonBlankL (pyStripL l) = nonBlankL l := by
  unfold pyStripL
  rw [nonBlankL_reverse, nonBlankL_dropWhile, nonBlankL_reverse, nonBlankL_dropWhile]

lemma pyStripL_eq_nil_iff (l : List Char) : pyStripL l = [] ↔ nonBlankL l = false := by
  constructor
  · intro h
    have hb := nonBlankL_pyStripL l
    rw [h] at hb
    exact hb.symm
  · intro h
    have hall : ∀ c ∈ l, isWs c = true := by
      intro c hc
      have := List.any_eq_false.mp h c hc
      simpa using this
    unfold pyStripL
    rw [List.dropWhile_eq_nil_iff.mpr hall]
    rfl

lemma pyStrip_ne_iff (t : String) : (pyStrip t ≠ "") ↔ pyNonBlank t = true := by
  unfold pyStrip pyNonBlank
  constructor
  · intro h
    cases hnb : nonBlankL t.data
    · exact absurd (by rw [(pyStripL_eq_nil_iff t.data).mpr hnb] : (⟨pyStripL t.data⟩ : String) = ⟨[]⟩) h
    · rfl
  · intro h he
    have hnil : pyStripL t.data = [] := by
      have := congrArg String.data he
      simpa using this
    rw [pyStripL_eq_nil_iff, h] at hnil
    cases hnil

lemma pyNonBlank_ne_empty (t : String) (h : pyNonBlank t = true) : t ≠ "" := by
  intro he
  subst he
  simp [pyNonBlank, nonBlankL] at h

lemma keepFilter_eq (l : List String) :
    l.filter (fun t => t ≠ "" && pyNonBlank t) = l.filter (fun t => pyStrip t ≠ "") := by
  apply List.filter_congr
  intro t _
  cases h : pyNonBlank t
  · have hstrip : pyStrip t = "" := by
      unfold pyStrip
      rw [(pyStripL_eq_nil_iff t.data).mpr h]
    simp [h, hstrip]
  · have hne := pyNonBlank_ne_empty t h
    have hstrip : pyStrip t ≠ "" := (pyStrip_ne_iff t).mpr h
    simp [h, hne, hstrip]

lemma map_eq_self {f : String → String} :
    ∀ l : List String, (∀ x ∈ l, f x = x) → l.map f = l := by
  intro l
  induction l with
  | nil => intro _; rfl
  | cons x xs ih =>
    intro h
    rw [List.map_cons, h x (List.mem_cons_self x xs),
      ih (fun y hy => h y (List.mem_cons_of_mem x hy))]

lemma tokenize_text_blank (text : String) (mode : String) (pat : Option (Char → Bool))
    (h : pyNonBlank text = false) : tokenize_text text mode pat = .ok [] := by
  simp [tokenize_text, h]

lemma tokenize_text_space_eval (text : String) (pat : Option (Char → Bool))
    (h : pyNonBlank text = true) :
    tokenize_text text "space" pat
      = .ok (((((pySplit text).filter (fun t => pyStrip t ≠ "")).map pyStrip).filter
          (fun t => pyStrip t ≠ "")).map pyLower) := by
  simp [tokenize_text, h]
  rfl

lemma tokenize_text_regex_eval (text : String) (p : Char → Bool)
    (h : pyNonBlank text = true) :
    tokenize_text text "regex" (some p)
      = .ok (((findall p text).filter (fun t => pyStrip t ≠ "")).map pyLower) := by
  simp [tokenize_text, h]
  rfl

lemma _tokenize_space (text : String) (pat : Option (Char → Bool)) :
    _tokenize text "space" pat = .ok ((pySplit text).filter (fun t => t ≠ "")) := by
  simp [_tokenize]

lemma _tokenize_regex (text : String) (p : Char → Bool) :
    _tokenize text "regex" (some p) = .ok (findall p text) := by
  simp [_tokenize]

lemma _tokenize_invalid (text : String) (mode : String) (pat : Option (Char → Bool))
    (h1 : mode ≠ "space") (h2 : mode ≠ "regex") :
    _tokenize text mode pat = .error (.invalidArgument "mode must be space or regex") := by
  simp [_tokenize, h1, h2]

lemma pySplit_strip_ne (s : String) : ∀ t ∈ pySplit s, pyStrip t ≠ "" := by
  intro t ht
  obtain ⟨hne, hall⟩ := pySplit_spec s t ht
  rw [pyStrip_ne_iff]
  unfold pyNonBlank nonBlankL
  rw [List.any_eq_true]
  obtain ⟨c, hc⟩ := List.exists_mem_of_ne_nil t.data hne
  exact ⟨c, hc, by simp [hall c hc]⟩

lemma pySplit_strip_id (s : String) : ∀ t ∈ pySplit s, pyStrip t = t := by
  intro t ht
  obtain ⟨-, hall⟩ := pySplit_spec s t ht
  unfold pyStrip
  rw [pyStripL_eq_self t.data hall]

lemma per_text_count (text : String) (mode : String) (pat : Option (Char → Bool))
    (hp : mode = "space" ∨ pat ≠ none)
    (ts₁ ts₂ : List String)
    (h1 : _tokenize text mode pat = .ok ts₁)
    (h2 : tokenize_text text mode pat = .ok ts₂)
    (hnb : pyNonBlank text = true) :
    (ts₁.filter (fun t => t ≠ "" && pyNonBlank t)).length = ts₂.length := by
  by_cases hm : mode = "space"
  · subst hm
    rw [_tokenize_space text pat] at h1
    rw [tokenize_text_space_eval text pat hnb] at h2
    have e1 : (pySplit text).filter (fun t => t ≠ "") = ts₁ := by
      injection h1
    have hfil1 : (pySplit text).filter (fun t => t ≠ "") = pySplit text := by
      apply List.filter_eq_self.mpr
      intro t ht
      have hne : t ≠ "" := by
        intro he
        exact (pySplit_spec text t ht).1 (by rw [he])
      simp [hne]
    have hfil2 : (pySplit text).filter (fun t => pyStrip t ≠ "") = pySplit text := by
      apply List.filter_eq_self.mpr
      intro t ht
      simp [pySplit_strip_ne text t ht]
    have hmap : (pySplit text).map pyStrip = pySplit text :=
      map_eq_self (pySplit text) (pySplit_strip_id text)
    have e2 : ((((pySplit text).filter (fun t => pyStrip t ≠ "")).map pyStrip).filter
        (fun t => pyStrip t ≠ "")).map pyLower = ts₂ := by
      injection h2
    rw [← e1, ← e2, hfil1, hfil2, hmap, hfil2, keepFilter_eq, hfil2, List.length_map]
  · by_cases hr : mode = "regex"
    · subst hr
      have hpat : pat ≠ none := hp.resolve_left hm
      obtain ⟨p, rfl⟩ := Option.ne_none_iff_exists'.mp hpat
      rw [_tokenize_regex text p] at h1
      rw [tokenize_text_regex_eval text p hnb] at h2
      have e1 : findall p text = ts₁ := by injection h1
      have e2 : ((findall p text).filter (fun t => pyStrip t ≠ "")).map pyLower = ts₂ := by
        injection h2
      rw [← e1, ← e2, keepFilter_eq, List.length_map]
    · rw [_tokenize_invalid text mode pat hm hr] at h1
      cases h1

lemma gather_tokenizeAll_length (mode : String) (pat : Option (Char → Bool))
    (hp : mode = "space" ∨ pat ≠ none) :
    ∀ (texts : List String) (toks ls : List String),
      gatherTokens mode pat texts = .ok toks →
      tokenizeAll mode pat texts = .ok ls →
      toks.length = ls.length := by
  intro texts
  induction texts with
  | nil =>
    intro toks ls h1 h2
    simp only [gatherTokens] at h1
    simp only [tokenizeAll] at h2
    cases h1
    cases h2
    rfl
  | cons text rest ih =>
    intro toks ls h1 h2
    by_cases hnb : pyNonBlank text = true
    · simp only [gatherTokens, hnb, Bool.not_true, Bool.false_eq_true, if_false] at h1
      simp only [tokenizeAll] at h2
      cases ht : _tokenize text mode pat with
      | error e => rw [ht] at h1; cases h1
      | ok ts₁ =>
        rw [ht] at h1
        cases hg : gatherTokens mode pat rest with
        | error e => rw [hg] at h1; cases h1
        | ok more =>
          rw [hg] at h1
          cases htt : tokenize_text text mode pat with
          | error e => rw [htt] at h2; cases h2
          | ok ts₂ =>
            rw [htt] at h2
            cases hta : tokenizeAll mode pat rest with
            | error e => rw [hta] at h2; cases h2
            | ok lsr =>
              rw [hta] at h2
              cases h1
              cases h2
              rw [List.length_append, List.length_append,
                per_text_count text mode pat hp ts₁ ts₂ ht htt hnb,
                ih more lsr hg hta]
    · have hnb' : pyNonBlank text = false := by
        cases h : pyNonBlank text
        · rfl
        · exact absurd h hnb
      simp only [gatherTokens, hnb', Bool.not_false, if_true] at h1
      simp only [tokenizeAll] at h2
      rw [tokenize_text_blank text mode pat hnb'] at h2
      cases hta : tokenizeAll mode pat rest with
      | error e => rw [hta] at h2; cases h2
      | ok lsr =>
        rw [hta] at h2
        cases h2
        simpa using ih toks lsr h1 hta

/-! ### C3: unigram counts versus Tokenizer counts -/

lemma sum_count_firstDedup (l : List String) :
    ((firstDedup l).map (fun t => l.count t)).sum = l.length := by
  have hperm : (firstDedup l).Perm l.dedup := by
    apply List.perm_of_nodup_nodup_toFinset_eq (nodup_firstDedup l) l.nodup_dedup
    ext x
    simp [List.mem_toFinset, mem_firstDedup, List.mem_dedup]
  rw [(hperm.map (fun t => l.count t)).sum_eq]
  exact List.sum_map_count_dedup_eq_length l

/-- C3 counterexample: on the text `"॥"` (the double danda, U+0965) the unigram
builder's default regex tokenization and the Tokenizer's default regex
tokenization disagree — the builder's default pattern matches U+0965 while the
Tokenizer's excludes it — so the `sort_by="freq"` counts sum to 1 while the
Tokenizer produces 0 tokens on the same input with the same mode and (default)
pattern. -/
theorem c3_counterexample :
    build_unigram ["॥"] "regex" none "freq" none = .ok [("॥", 1)] ∧
    tokenizeAll "regex" none ["॥"] = .ok [] ∧
    (([("॥", 1)] : List (String × Nat)).map Prod.snd).sum ≠ ([] : List String).length :=
  ⟨rfl, rfl, by decide⟩

/-- C3 (amended): for every list of texts and every mode/pattern pair in which
the pattern is explicitly supplied (or the mode is `space`, where no pattern is
used), the counts of the `sort_by="freq"` unigram table sum to the total number
of tokens the Tokenizer produces on the same texts with the same mode and
pattern. The claim's further assertion that the two DEFAULT regex tokenizations
agree is false: the builder's default pattern additionally matches U+0965 (see
the counterexample). -/
theorem c3_unigram_counts (texts : List String) (mode : String) (pat : Option (Char → Bool))
    (out : List (String × Nat)) (ls : List String)
    (hp : mode = "space" ∨ pat ≠ none)
    (hb : build_unigram texts mode pat "freq" none = .ok out)
    (ht : tokenizeAll mode pat texts = .ok ls) :
    (out.map Prod.snd).sum = ls.length := by
  cases hg : gatherTokens mode pat texts with
  | error e =>
    rw [show build_unigram texts mode pat "freq" none = .error e by
      simp only [build_unigram, hg]] at hb
    cases hb
  | ok toks =>
    have hsort : sortItems "freq" ((firstDedup toks).map (fun t => (t, toks.count t)))
        = .ok (List.insertionSort freqOrder
            ((firstDedup toks).map (fun t => (t, toks.count t)))) := by
      simp [sortItems]
    rw [show build_unigram texts mode pat "freq" none
        = .ok (List.insertionSort freqOrder
            ((firstDedup toks).map (fun t => (t, toks.count t)))) by
      simp only [build_unigram, hg, hsort]] at hb
    cases hb
    have hperm := List.perm_insertionSort freqOrder
      ((firstDedup toks).map (fun t => (t, toks.count t)))
    rw [(hperm.map Prod.snd).sum_eq, List.map_map]
    rw [show (Prod.snd ∘ fun t => (t, toks.count t)) = fun t => toks.count t from rfl]
    rw [sum_count_firstDedup]
    exact gather_tokenizeAll_length mode pat hp texts toks ls hg ht

/-- C3 witness: the amended theorem applied to the spec's own unigram scenario
(space mode). -/
theorem c3_unigram_counts_witness :
    build_unigram ["क ख क", "ख ग"] "space" none "freq" none
      = .ok [("क", 2), ("ख", 2), ("ग", 1)] ∧
    tokenizeAll "space" none ["क ख क", "ख ग"] = .ok ["क", "ख", "क", "ख", "ग"] ∧
    (([("क", 2), ("ख", 2), ("ग", 1)] : List (String × Nat)).map Prod.snd).sum
      = (["क", "ख", "क", "ख", "ग"] : List String).length :=
  ⟨rfl, rfl,
    c3_unigram_counts ["क ख क", "ख ग"] "space" none [("क", 2), ("ख", 2), ("ग", 1)]
      ["क", "ख", "क", "ख", "ग"] (Or.inl rfl) rfl rfl⟩

/-! ### C6: the `freq` sort order and `top_k` truncation -/

lemma lexLt_trans : ∀ a b c : List Char,
    lexLt a b = true → lexLt b c = true → lexLt a c = true := by
  intro a
  induction a with
  | nil =>
    intro b c hab hbc
    cases b with
    | nil => simp [lexLt] at hab
    | cons x xs =>
      cases c with
      | nil => simp [lexLt] at hbc
      | cons y ys => simp [lexLt]
  | cons a as ih =>
    intro b c hab hbc
    cases b with
    | nil => simp [lexLt] at hab
    | cons x xs =>
      cases c with
      | nil => simp [lexLt] at hbc
      | cons y ys =>
        have hax : a.val.toNat < x.val.toNat
            ∨ (¬ a.val.toNat < x.val.toNat ∧ ¬ x.val.toNat < a.val.toNat
                ∧ lexLt as xs = true) := by
          by_cases h1 : a.val.toNat < x.val.toNat
          · exact Or.inl h1
          · right
            rw [show lexLt (a :: as) (x :: xs)
                = if a.val.toNat < x.val.toNat then true
                  else if x.val.toNat < a.val.toNat then false
                  else lexLt as xs from rfl, if_neg h1] at hab
            by_cases h2 : x.val.toNat < a.val.toNat
            · rw [if_pos h2] at hab
              cases hab
            · rw [if_neg h2] at hab
              exact ⟨h1, h2, hab⟩
        have hxy : x.val.toNat < y.val.toNat
            ∨ (¬ x.val.toNat < y.val.toNat ∧ ¬ y.val.toNat < x.val.toNat
                ∧ lexLt xs ys = true) := by
          by_cases h1 : x.val.toNat < y.val.toNat
          · exact Or.inl h1
          · right
            rw [show lexLt (x :: xs) (y :: ys)
                = if x.val.toNat < y.val.toNat then true
                  else if y.val.toNat < x.val.toNat then false
                  else lexLt xs ys from rfl, if_neg h1] at hbc
            by_cases h2 : y.val.toNat < x.val.toNat
            · rw [if_pos h2] at hbc
              cases hbc
            · rw [if_neg h2] at hbc
              exact ⟨h1, h2, hbc⟩
        rw [show lexLt (a :: as) (y :: ys)
            = if a.val.toNat < y.val.toNat then true
              else if y.val.toNat < a.val.toNat then false
              else lexLt as ys from rfl]
        rcases hax with h | ⟨hna, hnx, hrec1⟩ <;> rcases hxy with h' | ⟨hnx', hny', hrec2⟩
        · rw [if_pos (by omega : a.val.toNat < y.val.toNat)]
        · rw [if_pos (by omega : a.val.toNat < y.val.toNat)]
        · rw [if_pos (by omega : a.val.toNat < y.val.toNat)]
        · rw [if_neg (by omega : ¬ a.val.toNat < y.val.toNat),
            if_neg (by omega : ¬ y.val.toNat < a.val.toNat)]
          exact ih xs ys hrec1 hrec2

lemma lexLt_conn : ∀ a b : List Char,
    lexLt a b = false → lexLt b a = false → a = b := by
  intro a
  induction a with
  | nil =>
    intro b h1 h2
    cases b with
    | nil => rfl
    | cons x xs => simp [lexLt] at h1
  | cons a as ih =>
    intro b h1 h2
    cases b with
    | nil => simp [lexLt] at h2
    | cons x xs =>
      rw [show lexLt (a :: as) (x :: xs)
          = if a.val.toNat < x.val.toNat then true
            else if x.val.toNat < a.val.toNat then false
            else lexLt as xs from rfl] at h1
      rw [show lexLt (x :: xs) (a :: as)
          = if x.val.toNat < a.val.toNat then true
            else if a.val.toNat < x.val.toNat then false
            else lexLt xs as from rfl] at h2
      by_cases hax : a.val.toNat < x.val.toNat
      · rw [if_pos hax] at h1
        cases h1
      · rw [if_neg hax] at h1
        by_cases hxa : x.val.toNat < a.val.toNat
        · rw [if_pos hxa] at h2
          cases h2
        · rw [if_neg hxa] at h1
          rw [if_neg hxa, if_neg hax] at h2
          have hchar : a = x := Char.ext (UInt32.toNat.inj (by omega))
          rw [hchar, ih xs h1 h2]

instance : IsTrans (String × Nat) freqOrder := by
  constructor
  intro a b c hab hbc
  unfold freqOrder at hab hbc ⊢
  rcases hab with h1 | ⟨he1, h1⟩ <;> rcases hbc with h2 | ⟨he2, h2⟩
  · exact Or.inl (lt_trans h2 h1)
  · exact Or.inl (by omega)
  · exact Or.inl (by omega)
  · right
    refine ⟨he1.trans he2, ?_⟩
    rcases h1 with hlt1 | heq1 <;> rcases h2 with hlt2 | heq2
    · exact Or.inl (lexLt_trans _ _ _ hlt1 hlt2)
    · exact Or.inl (by rw [← heq2]; exact hlt1)
    · exact Or.inl (by rw [heq1]; exact hlt2)
    · exact Or.inr (heq1.trans heq2)

instance : IsTotal (String × Nat) freqOrder := by
  constructor
  intro a b
  unfold freqOrder
  rcases Nat.lt_trichotomy a.2 b.2 with h | h | h
  · exact Or.inr (Or.inl h)
  · cases hl : lexLt a.1.data b.1.data
    · cases hl' : lexLt b.1.data a.1.data
      · have hdata : a.1.data = b.1.data := lexLt_conn _ _ hl hl'
        exact Or.inl (Or.inr ⟨h, Or.inr (String.ext hdata)⟩)
      · exact Or.inr (Or.inr ⟨h.symm, Or.inl rfl⟩)
    · exact Or.inl (Or.inr ⟨h, Or.inl rfl⟩)
  · exact Or.inl (Or.inl h)

/-- C6: the `sort_by="freq"` unigram table is sorted by `freqOrder` — count
descending, ties broken by token ascending in the codepoint-lexicographic
order — and is a permutation of the aggregated `(token, count)` entries; for
every `k`, `top_k = k` returns exactly the first `k` entries of the untruncated
sorted result, and the whole result, without error, when `k` is at least the
number of entries. -/
theorem c6_freq_sort (texts : List String) (mode : String) (pat : Option (Char → Bool))
    (k : Nat) (out : List (String × Nat))
    (hb : build_unigram texts mode pat "freq" none = .ok out) :
    List.Sorted freqOrder out ∧
    (∀ toks, gatherTokens mode pat texts = .ok toks →
      out.Perm ((firstDedup toks).map (fun t => (t, toks.count t)))) ∧
    build_unigram texts mode pat "freq" (some k) = .ok (out.take k) ∧
    (out.length ≤ k → build_unigram texts mode pat "freq" (some k) = .ok out) := by
  cases hg : gatherTokens mode pat texts with
  | error e =>
    rw [show build_unigram texts mode pat "freq" none = .error e by
      simp only [build_unigram, hg]] at hb
    cases hb
  | ok toks =>
    have hsort : sortItems "freq" ((firstDedup toks).map (fun t => (t, toks.count t)))
        = .ok (List.insertionSort freqOrder
            ((firstDedup toks).map (fun t => (t, toks.count t)))) := by
      simp [sortItems]
    rw [show build_unigram texts mode pat "freq" none
        = .ok (List.insertionSort freqOrder
            ((firstDedup toks).map (fun t => (t, toks.count t)))) by
      simp only [build_unigram, hg, hsort]] at hb
    cases hb
    refine ⟨List.sorted_insertionSort freqOrder _, ?_, ?_, ?_⟩
    · intro toks' hg'
      cases hg'
      exact List.perm_insertionSort freqOrder _
    · simp only [build_unigram, hg, hsort]
    · intro hlen
      rw [show build_unigram texts mode pat "freq" (some k)
          = .ok ((List.insertionSort freqOrder
              ((firstDedup toks).map (fun t => (t, toks.count t)))).take k) by
        simp only [build_unigram, hg, hsort]]
      rw [List.take_of_length_le hlen]

/-- C6 witness: the theorem applied to a concrete two-token text, checking the
sorted table and the `top_k` truncation. -/
theorem c6_freq_sort_witness :
    build_unigram ["b a a"] "space" none "freq" none = .ok [("a", 2), ("b", 1)] ∧
    List.Sorted freqOrder [("a", 2), ("b", 1)] ∧
    build_unigram ["b a a"] "space" none "freq" (some 1)
      = .ok (([("a", 2), ("b", 1)] : List (String × Nat)).take 1) :=
  ⟨rfl,
    (c6_freq_sort ["b a a"] "space" none 1 [("a", 2), ("b", 1)] rfl).1,
    (c6_freq_sort ["b a a"] "space" none 1 [("a", 2), ("b", 1)] rfl).2.2.1⟩

/-! ### C7: sentence context windows -/

lemma findSubAux_none' (s : List Char) :
    ∀ (c : List Char) (i : Nat), findSubAux s c i = none →
      ∀ j, ¬ occursAt c s j := by
  intro c
  induction c with
  | nil =>
    intro i h j
    by_cases hs : s = []
    · rw [show findSubAux s [] i = if s = [] then some i else none from rfl,
        if_pos hs] at h
      cases h
    · intro hocc
      apply hs
      rw [← hocc]
      simp [occursAt]
  | cons c₀ cs ih =>
    intro i h j
    rw [show findSubAux s (c₀ :: cs) i
        = if (c₀ :: cs).take s.length = s then some i else findSubAux s cs (i + 1)
        from rfl] at h
    by_cases hp : (c₀ :: cs).take s.length = s
    · rw [if_pos hp] at h
      cases h
    · rw [if_neg hp] at h
      cases j with
      | zero =>
        intro hocc
        exact hp (by simpa [occursAt] using hocc)
      | succ j' =>
        intro hocc
        exact ih (i + 1) h j' (by simpa [occursAt] using hocc)

lemma findSubAux_some' (s : List Char) :
    ∀ (c : List Char) (i r : Nat), findSubAux s c i = some r →
      i ≤ r ∧ occursAt c s (r - i) ∧ ∀ j, j < r - i → ¬ occursAt c s j := by
  intro c
  induction c with
  | nil =>
    intro i r h
    by_cases hs : s = []
    · rw [show findSubAux s [] i = if s = [] then some i else none from rfl,
        if_pos hs] at h
      cases h
      refine ⟨le_refl i, by simp [occursAt, hs], ?_⟩
      intro j hj
      omega
    · rw [show findSubAux s [] i = if s = [] then some i else none from rfl,
        if_neg hs] at h
      cases h
  | cons c₀ cs ih =>
    intro i r h
    rw [show findSubAux s (c₀ :: cs) i
        = if (c₀ :: cs).take s.length = s then some i else findSubAux s cs (i + 1)
        from rfl] at h
    by_cases hp : (c₀ :: cs).take s.length = s
    · rw [if_pos hp] at h
      cases h
      refine ⟨le_refl i, by simpa [occursAt] using hp, ?_⟩
      intro j hj
      omega
    · rw [if_neg hp] at h
      obtain ⟨hle, hocc, hmin⟩ := ih (i + 1) r h
      refine ⟨by omega, ?_, ?_⟩
      · have hri : r - i = (r - (i + 1)) + 1 := by omega
        rw [hri]
        simpa [occursAt] using hocc
      · intro j hj
        cases j with
        | zero =>
          intro hocc'
          exact hp (by simpa [occursAt] using hocc')
        | succ j' =>
          intro hocc'
          exact hmin j' (by omega) (by simpa [occursAt] using hocc')

/-- C7: the context of a matched sentence is the substring of the content from
`max(0, sentence_start - 100)` to `min(len(content), sentence_end + 100)`,
where `sentence_start` is the position of the FIRST verbatim occurrence of the
sentence in the content and `sentence_end = sentence_start + len(sentence)`;
an ellipsis marker is prepended exactly when material to the left of the window
was omitted (lower bound positive) and appended exactly when material to the
right was omitted (upper bound below the content length); when the sentence
does not occur verbatim, the context is the sentence itself. -/
theorem c7_sentence_context (content sentence : String) :
    (pyFind content.data sentence.data = none →
      (∀ i, ¬ occursAt content.data sentence.data i) ∧
      _get_sentence_context content sentence 100 = sentence) ∧
    (∀ s, pyFind content.data sentence.data = some s →
      occursAt content.data sentence.data s ∧
      (∀ j, j < s → ¬ occursAt content.data sentence.data j) ∧
      _get_sentence_context content sentence 100
        = ⟨(if 0 < s - 100 then "...".data else [])
            ++ ((content.data.take
                  (min content.data.length (s + sentence.data.length + 100))).drop (s - 100))
            ++ (if min content.data.length (s + sentence.data.length + 100)
                  < content.data.length
                then "...".data else [])⟩) := by
  constructor
  · intro hnone
    constructor
    · exact findSubAux_none' sentence.data content.data 0 hnone
    · unfold _get_sentence_context
      rw [hnone]
  · intro s hsome
    obtain ⟨-, hocc, hmin⟩ := findSubAux_some' sentence.data content.data 0 s hsome
    refine ⟨by simpa using hocc, ?_, ?_⟩
    · intro j hj
      exact hmin j (by omega)
    · unfold _get_sentence_context
      rw [hsome]
      dsimp only
      split_ifs <;> simp [List.append_assoc]

/-- C7 witness: the theorem applied to a concrete content/sentence pair in
which the sentence occurs at position 1. -/
theorem c7_sentence_context_witness :
    occursAt "abc".data "b".data 1 ∧ _get_sentence_context "abc" "b" 100 = "abc" :=
  ⟨((c7_sentence_context "abc" "b").2 1 rfl).1,
    (((c7_sentence_context "abc" "b").2 1 rfl).2.2).trans (by decide)⟩

/-! ### C8: engine precondition failures -/

lemma searchStep_errors (idx : InvertedIndex) (op : String) (acc : List String)
    (b : String) (er : PyErr) (h : searchStep idx op acc b = .error er) :
    er = .invalidArgument "Operation must be AND or OR" := by
  unfold searchStep at h
  dsimp only at h
  split_ifs at h
  cases h
  rfl

lemma searchLoop_errors (idx : InvertedIndex) (op : String) :
    ∀ (rest : List String) (acc : List String) (er : PyErr),
      searchLoop idx op acc rest = .error er →
      er = .invalidArgument "Operation must be AND or OR" := by
  intro rest
  induction rest with
  | nil =>
    intro acc er h
    cases h
  | cons b rest ih =>
    intro acc er h
    rw [show searchLoop idx op acc (b :: rest)
        = match searchStep idx op acc b with
          | .error e => .error e
          | .ok results' => searchLoop idx op results' rest from rfl] at h
    cases hs : searchStep idx op acc b with
    | error e =>
      rw [hs] at h
      cases h
      exact searchStep_errors idx op acc b er hs
    | ok results' =>
      rw [hs] at h
      exact ih results' er h

lemma search_no_precondition (idx : InvertedIndex) (ts : List String) (op : String)
    (m : String) : search idx ts op ≠ .error (.preconditionFailed m) := by
  cases ts with
  | nil =>
    intro h
    cases h
  | cons first rest =>
    intro h
    have := searchLoop_errors idx op rest (get_documents idx first) (.preconditionFailed m) h
    cases this

lemma tokenize_text_regex_ok (text : String) (pat : Option (Char → Bool)) :
    ∃ ts, tokenize_text text "regex" pat = .ok ts := by
  by_cases h : pyNonBlank text = true
  · refine ⟨((findall (pat.getD devPatternTokenizer) text).filter
      (fun t => pyStrip t ≠ "")).map pyLower, ?_⟩
    simp [tokenize_text, h]
    rfl
  · have h' : pyNonBlank text = false := by
      cases hh : pyNonBlank text
      · rfl
      · exact absurd hh h
    exact ⟨[], tokenize_text_blank text "regex" pat h'⟩

lemma search_documents_no_precondition (idx : InvertedIndex)
    (cc : Option (List (String × String))) (query operation : String) (limit : Option Int)
    (m : String) :
    search_documents ⟨some idx, cc⟩ query operation limit
      ≠ .error (.preconditionFailed m) := by
  intro h
  unfold search_documents at h
  dsimp only at h
  obtain ⟨qts, hq⟩ := tokenize_text_regex_ok query none
  rw [hq] at h
  dsimp only at h
  by_cases hqe : qts = []
  · rw [if_pos hqe] at h
    cases h
  · rw [if_neg hqe] at h
    cases hs : search idx qts operation with
    | error er =>
      rw [hs] at h
      cases h
      exact search_no_precondition idx qts operation m hs
    | ok results =>
      rw [hs] at h
      cases h

/-- C8: `search_documents` fails with `PreconditionFailed` when no index is
loaded, and `search_sentences` fails with `PreconditionFailed` when the index
or the corpus store is absent; when the required state is present, neither
operation ever fails with `PreconditionFailed` (their only failures are
`InvalidArgument` from the boolean-operation check). -/
theorem c8_preconditions (e : SearchEngine) (query operation : String)
    (limit : Option Int) :
    (e.index = none →
      search_documents e query operation limit
        = .error (.preconditionFailed
            "No index loaded. Use load_index or provide index during initialization.")) ∧
    (e.index = none ∨ e.corpus_csv = none →
      search_sentences e query operation limit
        = .error (.preconditionFailed
            "Both index and corpus CSV must be available for sentence search.")) ∧
    (e.index ≠ none →
      ∀ m, search_documents e query operation limit ≠ .error (.preconditionFailed m)) ∧
    (e.index ≠ none → e.corpus_csv ≠ none →
      ∀ m, search_sentences e query operation limit ≠ .error (.preconditionFailed m)) := by
  obtain ⟨ix, cc⟩ := e
  refine ⟨?_, ?_, ?_, ?_⟩
  · intro hix
    have : ix = none := hix
    subst this
    rfl
  · intro hor
    rcases hor with hix | hcc
    · have : ix = none := hix
      subst this
      cases cc <;> rfl
    · have : cc = none := hcc
      subst this
      cases ix <;> rfl
  · intro hix m
    have : ix ≠ none := hix
    obtain ⟨idx, rfl⟩ := Option.ne_none_iff_exists'.mp this
    exact search_documents_no_precondition idx cc query operation limit m
  · intro hix hcc m
    obtain ⟨idx, rfl⟩ := Option.ne_none_iff_exists'.mp (show ix ≠ none from hix)
    obtain ⟨rows, rfl⟩ := Option.ne_none_iff_exists'.mp (show cc ≠ none from hcc)
    intro h
    unfold search_sentences at h
    dsimp only at h
    cases hd : search_documents ⟨some idx, some rows⟩ query operation none with
    | error er =>
      rw [hd] at h
      cases h
      exact search_documents_no_precondition idx (some rows) query operation none m hd
    | ok doc_ids =>
      rw [hd] at h
      dsimp only at h
      by_cases hde : doc_ids = []
      · rw [if_pos hde] at h
        cases h
      · rw [if_neg hde] at h
        cases h

/-- C8 witness: the theorem applied to an unconfigured engine and to a fully
configured one. -/
theorem c8_preconditions_witness :
    search_documents ⟨none, none⟩ "क" "AND" none
      = .error (.preconditionFailed
          "No index loaded. Use load_index or provide index during initialization.") ∧
    search_sentences ⟨none, none⟩ "क" "AND" none
      = .error (.preconditionFailed
          "Both index and corpus CSV must be available for sentence search.") ∧
    (∀ m, search_documents ⟨some ⟨[], 0, 0⟩, some []⟩ "क" "AND" none
      ≠ .error (.preconditionFailed m)) :=
  ⟨(c8_preconditions ⟨none, none⟩ "क" "AND" none).1 rfl,
    (c8_preconditions ⟨none, none⟩ "क" "AND" none).2.1 (Or.inl rfl),
    (c8_preconditions ⟨some ⟨[], 0, 0⟩, some []⟩ "क" "AND" none).2.2.1
      (by intro h; cases h)⟩

/-! ### C10: the `limit` argument -/

lemma applyLimit_none (l : List String) : applyLimit none l = l := rfl

lemma applyLimit_zero (l : List String) : applyLimit (some 0) l = l := by
  simp [applyLimit, limitTruthy]

lemma applyLimit_pos (k : Int) (hk : 0 < k) (l : List String) :
    applyLimit (some k) l = l.take k.toNat := by
  unfold applyLimit pySliceToS limitTruthy
  rw [if_pos (by simpa using (by omega : k ≠ 0)), Option.getD_some,
    if_neg (by omega : ¬ k < 0)]

lemma applyLimit_nil (limit : Option Int) : applyLimit limit [] = [] := by
  unfold applyLimit pySliceToS
  split_ifs <;> simp

lemma runLimitLoop_falsy (limit : Option Int) (hf : limitTruthy limit = false) :
    ∀ (ms acc : List SentenceResult), runLimitLoop limit acc ms = acc ++ ms := by
  intro ms
  induction ms with
  | nil => intro acc; simp [runLimitLoop]
  | cons m ms ih =>
    intro acc
    rw [show runLimitLoop limit acc (m :: ms)
        = if limitTruthy limit ∧ (limit.getD 0) ≤ ((acc ++ [m]).length : Int) then
            pySliceTo (limit.getD 0) (acc ++ [m])
          else runLimitLoop limit (acc ++ [m]) ms from rfl]
    rw [if_neg (by simp [hf])]
    rw [ih (acc ++ [m])]
    simp

lemma runLimitLoop_pos (k : Int) (hk : 0 < k) :
    ∀ (ms acc : List SentenceResult), (acc.length : Int) < k →
      runLimitLoop (some k) acc ms = (acc ++ ms).take k.toNat := by
  intro ms
  induction ms with
  | nil =>
    intro acc hlt
    rw [show runLimitLoop (some k) acc [] = acc from rfl,
      List.append_nil, List.take_of_length_le (by omega : acc.length ≤ k.toNat)]
  | cons m ms ih =>
    intro acc hlt
    rw [show runLimitLoop (some k) acc (m :: ms)
        = if limitTruthy (some k) ∧ ((some k).getD 0) ≤ ((acc ++ [m]).length : Int) then
            pySliceTo ((some k).getD 0) (acc ++ [m])
          else runLimitLoop (some k) (acc ++ [m]) ms from rfl]
    by_cases hc : k ≤ ((acc ++ [m]).length : Int)
    · rw [if_pos ⟨by simp [limitTruthy]; omega, by simpa using hc⟩]
      have hc' : k ≤ (acc.length : Int) + 1 := by simpa using hc
      have hk1 : k.toNat = (acc ++ [m]).length := by
        simp only [List.length_append, List.length_cons, List.length_nil]
        omega
      unfold pySliceTo
      rw [Option.getD_some, if_neg (by omega : ¬ k < 0), hk1,
        show acc ++ m :: ms = (acc ++ [m]) ++ ms by simp,
        List.take_left, List.take_length]
    · rw [if_neg (by
        rintro ⟨-, hle⟩
        exact hc (by simpa using hle))]
      rw [ih (acc ++ [m]) (lt_of_not_le hc)]
      congr 1
      simp

lemma search_documents_map (e : SearchEngine) (query operation : String)
    (limit : Option Int) :
    search_documents e query operation limit
      = Except.map (applyLimit limit) (search_documents e query operation none) := by
  obtain ⟨ix, cc⟩ := e
  cases ix with
  | none => rfl
  | some idx =>
    unfold search_documents
    dsimp only
    cases ht : tokenize_text query "regex" none with
    | error er => rfl
    | ok qts =>
      dsimp only
      by_cases hq : qts = []
      · rw [if_pos hq, if_pos hq]
        show Except.ok [] = Except.ok (applyLimit limit [])
        rw [applyLimit_nil]
      · rw [if_neg hq, if_neg hq]
        cases hs : search idx qts operation with
        | error er => rfl
        | ok results => rfl

lemma search_sentences_map (e : SearchEngine) (query operation : String)
    (limit : Option Int) :
    search_sentences e query operation limit
      = Except.map (fun ms => runLimitLoop limit [] ms)
          (search_sentences e query operation none) := by
  obtain ⟨ix, cc⟩ := e
  cases ix with
  | none => cases cc <;> rfl
  | some idx =>
    cases cc with
    | none => rfl
    | some rows =>
      unfold search_sentences
      dsimp only
      cases hd : search_documents ⟨some idx, some rows⟩ query operation none with
      | error er => rfl
      | ok doc_ids =>
        dsimp only
        by_cases hde : doc_ids = []
        · rw [if_pos hde, if_pos hde]
          rfl
        · rw [if_neg hde, if_neg hde]
          show Except.ok _ = Except.ok _
          rw [runLimitLoop_falsy none rfl _ []]
          rfl

/-- C10: calling `search_documents` or `search_sentences` with `limit = 0`
returns the full, untruncated result, identical to calling with `limit`
absent (`0` is falsy, so the truncation step is skipped); with a positive
`limit = k` the successful result is exactly the first `k` elements of the
untruncated result. -/
theorem c10_limit_semantics (e : SearchEngine) (query operation : String) :
    (search_documents e query operation (some 0)
      = search_documents e query operation none) ∧
    (search_sentences e query operation (some 0)
      = search_sentences e query operation none) ∧
    (∀ k : Int, 0 < k →
      (∀ l, search_documents e query operation none = .ok l →
        search_documents e query operation (some k) = .ok (l.take k.toNat)) ∧
      (∀ l, search_sentences e query operation none = .ok l →
        search_sentences e query operation (some k) = .ok (l.take k.toNat))) := by
  refine ⟨?_, ?_, ?_⟩
  · rw [search_documents_map e query operation (some 0)]
    cases hb : search_documents e query operation none with
    | error er => rfl
    | ok l =>
      show Except.ok (applyLimit (some 0) l) = _
      rw [applyLimit_zero]
  · rw [search_sentences_map e query operation (some 0)]
    cases hb : search_sentences e query operation none with
    | error er => rfl
    | ok l =>
      show Except.ok (runLimitLoop (some 0) [] l) = _
      rw [runLimitLoop_falsy (some 0) (by simp [limitTruthy]) l []]
      rfl
  · intro k hk
    constructor
    · intro l hb
      rw [search_documents_map e query operation (some k), hb]
      show Except.ok (applyLimit (some k) l) = _
      rw [applyLimit_pos k hk]
    · intro l hb
      rw [search_sentences_map e query operation (some k), hb]
      show Except.ok (runLimitLoop (some k) [] l) = _
      rw [runLimitLoop_pos k hk l [] (by simpa using hk)]
      rfl

/-- C10 witness: the theorem applied to a concrete configured engine. -/
theorem c10_limit_semantics_witness :
    search_documents ⟨some ⟨[("ख", ["d1"])], 1, 1⟩, some [("d1", "क ख। ख ग")]⟩
        "ख" "AND" (some 0)
      = search_documents ⟨some ⟨[("ख", ["d1"])], 1, 1⟩, some [("d1", "क ख। ख ग")]⟩
        "ख" "AND" none ∧
    search_sentences ⟨some ⟨[("ख", ["d1"])], 1, 1⟩, some [("d1", "क ख। ख ग")]⟩
        "ख" "AND" (some 0)
      = search_sentences ⟨some ⟨[("ख", ["d1"])], 1, 1⟩, some [("d1", "क ख। ख ग")]⟩
        "ख" "AND" none ∧
    search_documents ⟨some ⟨[("ख", ["d1"])], 1, 1⟩, some [("d1", "क ख। ख ग")]⟩
        "ख" "AND" (some 1)
      = .ok ((["d1"] : List String).take (1 : Int).toNat) :=
  ⟨(c10_limit_semantics ⟨some ⟨[("ख", ["d1"])], 1, 1⟩, some [("d1", "क ख। ख ग")]⟩
      "ख" "AND").1,
    (c10_limit_semantics ⟨some ⟨[("ख", ["d1"])], 1, 1⟩, some [("d1", "क ख। ख ग")]⟩
      "ख" "AND").2.1,
    ((c10_limit_semantics ⟨some ⟨[("ख", ["d1"])], 1, 1⟩, some [("d1", "क ख। ख ग")]⟩
      "ख" "AND").2.2 1 (by decide)).1 ["d1"] rfl⟩

end NewaNlp
